import Mathlib

/-!
Verification of the stock-watchlist terminal client's cache/lookup core.

The embedding below translates the TypeScript source into Lean:

* JS strings are modelled at the character-sequence level (`List Char`).
  The tickers, cache categories, timestamps and AI responses handled by the
  program are ASCII, where JS UTF-16 units, Unicode code points and UTF-8
  bytes coincide, so `Char`-level operations model `String.prototype`
  methods exactly.
* The SQLite tables (`watchlist`, `alpha_vantage_cache`) are modelled as
  Lean lists of rows.  `INSERT OR REPLACE` with a `UNIQUE(ticker,
  cache_type)` constraint removes any conflicting row and appends the new
  one; `DELETE ... WHERE` is list filtering; `stmt.run(...).changes` is the
  number of removed rows.
* `JSON.stringify`/`JSON.parse` round-trip is the identity on the
  JSON-serializable payloads the program stores, so the `data` column keeps
  the payload value itself (at a type parameter `α`).
* Timestamps are milliseconds since the Unix epoch (`Int`), exactly the
  value of `Date.now()`.  `Date.prototype.toISOString` and SQLite's
  `CURRENT_TIMESTAMP` are modelled as the real string-formatting functions
  (proleptic Gregorian calendar, Howard Hinnant's civil-date algorithms),
  because the source compares those two *strings* with SQL `>`.
  SQLite compares two TEXT values with memcmp (the `expires_at` column has
  NUMERIC affinity, but neither timestamp string parses as a number, so
  both stay TEXT), modelled by `lexGtCh` below.
-/

/-- JS whitespace (`\s` of the regexes and `String.prototype.trim`)
restricted to the ASCII characters that can appear in the program's data. -/
def jsIsWs (c : Char) : Bool :=
  c = ' ' || c = '\t' || c = '\n' || c = '\r' || c = '\x0b' || c = '\x0c'

/-- `String.prototype.trim` on a character list. -/
def trimCh (cs : List Char) : List Char :=
  ((cs.dropWhile jsIsWs).reverse.dropWhile jsIsWs).reverse

/-- `String.prototype.trim`. -/
def jsTrim (s : String) : String := ⟨trimCh s.data⟩

/-- `String.prototype.toUpperCase` (ASCII). -/
def jsToUpper (s : String) : String := ⟨s.data.map Char.toUpper⟩

/-- `String.prototype.toLowerCase` (ASCII), on a character list. -/
def lowerCh (cs : List Char) : List Char := cs.map Char.toLower

/-- `String.prototype.split(sep)` for a one-character separator: JS returns
the (possibly empty) chunks between occurrences of the separator. -/
def splitOnCh (sep : Char) : List Char → List (List Char)
  | [] => [[]]
  | c :: rest =>
    let r := splitOnCh sep rest
    if c = sep then [] :: r
    else
      match r with
      | [] => [[c]]
      | h :: t => (c :: h) :: t

/-- `content.split('\n').filter(line => line.trim())` — the non-blank lines,
shared by both Perplexity parsers. -/
def jsLines (content : String) : List (List Char) :=
  (splitOnCh '\n' content.data).filter (fun l => !(trimCh l).isEmpty)

/-- `String.prototype.includes(sub)` (substring search). -/
def containsSub (hay sub : List Char) : Bool :=
  match hay with
  | [] => sub.isEmpty
  | _ :: rest => sub.isPrefixOf hay || containsSub rest sub

/-- memcmp `>` on two character sequences: SQLite's TEXT comparison with the
default BINARY collation (UTF-8 bytes and code points agree on ASCII). -/
def lexGtCh : List Char → List Char → Bool
  | [], _ => false
  | _ :: _, [] => true
  | a :: as, b :: bs => if a = b then lexGtCh as bs else decide (b.toNat < a.toNat)

/-- Two decimal digits, zero padded. -/
def pad2 (n : Nat) : List Char :=
  [Nat.digitChar (n / 10 % 10), Nat.digitChar (n % 10)]

/-- Three decimal digits, zero padded. -/
def pad3 (n : Nat) : List Char :=
  [Nat.digitChar (n / 100 % 10), Nat.digitChar (n / 10 % 10), Nat.digitChar (n % 10)]

/-- Four decimal digits, zero padded. -/
def pad4 (n : Nat) : List Char :=
  [Nat.digitChar (n / 1000 % 10), Nat.digitChar (n / 100 % 10),
   Nat.digitChar (n / 10 % 10), Nat.digitChar (n % 10)]

/-- Civil date from days since 1970-01-01 (proleptic Gregorian, Howard
Hinnant's `civil_from_days`), as used by both `Date.prototype.toISOString`
and SQLite's `CURRENT_TIMESTAMP`. -/
def civilFromDays (z0 : Int) : Int × Nat × Nat :=
  let z := z0 + 719468
  let era : Int := z.fdiv 146097
  let doe : Nat := (z - era * 146097).toNat
  let yoe : Nat := (doe - doe / 1460 + doe / 36524 - doe / 146096) / 365
  let y : Int := (yoe : Int) + era * 400
  let doy : Nat := doe - (365 * yoe + yoe / 4 - yoe / 100)
  let mp : Nat := (5 * doy + 2) / 153
  let d : Nat := doy - (153 * mp + 2) / 5 + 1
  let m : Nat := if mp < 10 then mp + 3 else mp - 9
  (if m ≤ 2 then y + 1 else y, m, d)

/-- Days since 1970-01-01 from a civil date (Hinnant's `days_from_civil`),
the arithmetic behind `new Date("YYYY-MM-DD")`. -/
def daysFromCivil (y : Int) (m d : Nat) : Int :=
  let yAdj : Int := if m ≤ 2 then y - 1 else y
  let era : Int := yAdj.fdiv 400
  let yoe : Nat := (yAdj - era * 400).toNat
  let mp : Nat := if m > 2 then m - 3 else m + 9
  let doy : Nat := (153 * mp + 2) / 5 + d - 1
  let doe : Nat := yoe * 365 + yoe / 4 - yoe / 100 + doy
  era * 146097 + (doe : Int) - 719468

/-- Split an epoch-milliseconds instant into calendar/clock components. -/
def civilOfMs (ms : Int) : Int × Nat × Nat × Nat × Nat × Nat × Nat :=
  let days := ms.fdiv 86400000
  let rem : Nat := (ms - days * 86400000).toNat
  match civilFromDays days with
  | (y, m, d) => (y, m, d, rem / 3600000, rem / 60000 % 60, rem / 1000 % 60, rem % 1000)

/-- `new Date(ms).toISOString()` for years 0–9999: `YYYY-MM-DDTHH:mm:ss.sssZ`. -/
def toISOString (ms : Int) : String :=
  match civilOfMs ms with
  | (y, mo, d, h, mi, s, msp) =>
    ⟨pad4 y.toNat ++ ['-'] ++ pad2 mo ++ ['-'] ++ pad2 d ++ ['T'] ++ pad2 h ++ [':'] ++
     pad2 mi ++ [':'] ++ pad2 s ++ ['.'] ++ pad3 msp ++ ['Z']⟩

/-- SQLite `CURRENT_TIMESTAMP` at the same instant: `YYYY-MM-DD HH:MM:SS`
(UTC, whole seconds). -/
def sqliteNowString (ms : Int) : String :=
  match civilOfMs ms with
  | (y, mo, d, h, mi, s, _) =>
    ⟨pad4 y.toNat ++ ['-'] ++ pad2 mo ++ ['-'] ++ pad2 d ++ [' '] ++ pad2 h ++ [':'] ++
     pad2 mi ++ [':'] ++ pad2 s⟩

/-- One row of the `alpha_vantage_cache` table.  The `data` column holds the
JSON-serializable payload itself (serialization round-trip is the identity);
`cachedAt`/`expiresAt` are the TEXT timestamps actually stored. -/
structure CacheRow (α : Type) where
  ticker : String
  cacheType : String
  data : α
  cachedAt : String
  expiresAt : String
deriving DecidableEq

/-- The `alpha_vantage_cache` table (rows in storage order). -/
abbrev CacheDB (α : Type) := List (CacheRow α)

/-- Does a row belong to the `(ticker, cache_type)` pair? -/
def rowKeyMatches (up cacheType : String) (row : CacheRow α) : Bool :=
  decide (row.ticker = up) && decide (row.cacheType = cacheType)

/-- `WatchlistDatabase.setCacheData`: computes
`expiresAt = new Date(Date.now() + expiresInHours * 60 * 60 * 1000).toISOString()`
and upserts by `(ticker.toUpperCase(), cacheType)` (`INSERT OR REPLACE`).
Returns the success flag. -/
def setCacheData (db : CacheDB α) (nowMs : Int) (ticker cacheType : String)
    (payload : α) (expiresInHours : Int) : Bool × CacheDB α :=
  let up := jsToUpper ticker
  let expiresAt := toISOString (nowMs + expiresInHours * 3600000)
  let kept := db.filter (fun row => !rowKeyMatches up cacheType row)
  (true, kept ++ [⟨up, cacheType, payload, sqliteNowString nowMs, expiresAt⟩])

/-- `WatchlistDatabase.getCacheData`: selects the row with the given key and
`expires_at > CURRENT_TIMESTAMP` (a TEXT comparison) and returns its parsed
payload, `null`/`none` otherwise. -/
def getCacheData (db : CacheDB α) (nowMs : Int) (ticker cacheType : String) : Option α :=
  let up := jsToUpper ticker
  (db.find? (fun row => rowKeyMatches up cacheType row &&
      lexGtCh row.expiresAt.data (sqliteNowString nowMs).data)).map (·.data)

/-- `WatchlistDatabase.clearSpecificCache`: deletes every row of the
`(ticker.toUpperCase(), cacheType)` pair regardless of expiry and reports
`changes > 0`. -/
def clearSpecificCache (db : CacheDB α) (ticker cacheType : String) : Bool × CacheDB α :=
  let up := jsToUpper ticker
  let kept := db.filter (fun row => !rowKeyMatches up cacheType row)
  (decide (kept.length < db.length), kept)

/-- One row of the `watchlist` table: unique uppercase ticker, insertion
timestamp, and the optional last-known quote snapshot (numeric snapshot
values are irrelevant to the claims and modelled as integers). -/
structure WatchRow where
  ticker : String
  addedAt : Int
  price : Option Int
  change : Option Int
  changePercent : Option Int
  lastUpdated : Option Int
deriving DecidableEq

/-- `WatchlistDatabase.addStock`: `INSERT INTO watchlist (ticker) VALUES
(ticker.toUpperCase())`; the `UNIQUE` constraint rejects a duplicate, the
`catch` turns that into `false`. -/
def addStock (db : List WatchRow) (nowMs : Int) (ticker : String) :
    Bool × List WatchRow :=
  let up := jsToUpper ticker
  if db.any (fun r => decide (r.ticker = up)) then (false, db)
  else (true, db ++ [⟨up, nowMs, none, none, none, none⟩])

/-- Left-biased merge of two runs, the building block of the stable merge
sort with which `Array.prototype.sort(comparator)` is modelled (ECMAScript
requires sort to be stable; `le a b` stands for `comparator(a,b) <= 0`).
Structurally recursive on a fuel argument so that it evaluates inside the
kernel; `as.length + bs.length` fuel always suffices. -/
def mergeFuel (le : α → α → Bool) : Nat → List α → List α → List α
  | _, [], bs => bs
  | _, a :: as, [] => a :: as
  | 0, a :: as, b :: bs => a :: as ++ b :: bs
  | n + 1, a :: as, b :: bs =>
    if le a b then a :: mergeFuel le n as (b :: bs)
    else b :: mergeFuel le n (a :: as) bs

/-- Left-biased merge of two runs (fuel instantiated). -/
def mergeBy (le : α → α → Bool) (as bs : List α) : List α :=
  mergeFuel le (as.length + bs.length) as bs

/-- Stable top-down merge sort on a fuel argument (`l.length` suffices). -/
def msortFuel (le : α → α → Bool) : Nat → List α → List α
  | _, [] => []
  | _, [a] => [a]
  | 0, l => l
  | n + 1, l =>
    mergeBy le (msortFuel le n (l.take (l.length / 2)))
      (msortFuel le n (l.drop (l.length / 2)))

/-- Stable merge sort, the model of `Array.prototype.sort(comparator)`. -/
def msortBy (le : α → α → Bool) (l : List α) : List α :=
  msortFuel le l.length l

/-- `WatchlistDatabase.getAllStocks`: `SELECT ... ORDER BY added_at DESC`
(newest first). -/
def getAllStocks (db : List WatchRow) : List WatchRow :=
  msortBy (fun a b => decide (b.addedAt ≤ a.addedAt)) db

deriving instance DecidableEq for Except

/-- A parsed financial event (`FinancialEvent` of `perplexity.ts`). -/
structure FinancialEvent where
  date : String
  description : String
  impact : String
deriving DecidableEq

/-- Decimal value of an ASCII digit character. -/
def digitVal (c : Char) : Nat := c.toNat - 48

/-- `\d{4}-\d{2}-\d{2}` matched at the start of `cs`: the ten date
characters and the remainder. -/
def takeDate : List Char → Option (List Char × List Char)
  | c1 :: c2 :: c3 :: c4 :: c5 :: c6 :: c7 :: c8 :: c9 :: c10 :: rest =>
    if c1.isDigit && c2.isDigit && c3.isDigit && c4.isDigit && c5 = '-' &&
       c6.isDigit && c7.isDigit && c8 = '-' && c9.isDigit && c10.isDigit then
      some ([c1, c2, c3, c4, c5, c6, c7, c8, c9, c10], rest)
    else none
  | _ => none

/-- The tail of the regex
`/(\d{4}-\d{2}-\d{2})\s*\|\s*([^|]+)\s*\|\s*(positive|negative|neutral)/i`
after the second `|`: skip `\s*`, then the alternation must match
case-insensitively as a prefix (the regex has no `$` anchor, so trailing
text is allowed).  The three alternatives are prefix-free, so first-match
order is irrelevant.  `match[3].trim().toLowerCase()` always yields the
lowercase keyword; `match[2]` is `description.trim().substring(0, 50)`:
the greedy `[^|]+` runs to just before the following `|` and the
surrounding `\s*` only shifts whitespace that `.trim()` removes anyway, so
the stored description is the trimmed inter-pipe span cut to 50 characters. -/
def mkEvent (date span rest : List Char) : Option FinancialEvent :=
  let low := lowerCh (rest.dropWhile jsIsWs)
  let description : String := ⟨(trimCh span).take 50⟩
  if "positive".data.isPrefixOf low then some ⟨⟨date⟩, description, "positive"⟩
  else if "negative".data.isPrefixOf low then some ⟨⟨date⟩, description, "negative"⟩
  else if "neutral".data.isPrefixOf low then some ⟨⟨date⟩, description, "neutral"⟩
  else none

/-- One attempted match of the event regex at this position: the date, then
`\s*` and a `|`, then the non-empty `[^|]+` span running to the next `|`
(if the span would be empty or no second `|` exists the match at this
position fails), then the impact keyword. -/
def matchEventAt (cs : List Char) : Option FinancialEvent :=
  match takeDate cs with
  | none => none
  | some (date, rest) =>
    match rest.dropWhile jsIsWs with
    | '|' :: r2 =>
      let span := r2.takeWhile (fun c => !decide (c = '|'))
      if span.isEmpty then none
      else
        match r2.dropWhile (fun c => !decide (c = '|')) with
        | '|' :: r4 => mkEvent date span r4
        | _ => none
    | _ => none

/-- `trimmedLine.match(regex)`: the regex engine scans left to right and
returns the first position where the pattern matches. -/
def scanEventLine : List Char → Option FinancialEvent
  | [] => none
  | c :: rest =>
    match matchEventAt (c :: rest) with
    | some e => some e
    | none => scanEventLine rest

/-- The per-line step of `PerplexityService.parseFinancialEvents`: the line
is trimmed, matched against the event regex, and the groups checked truthy
(the date and impact groups are always non-empty; `[^|]+` guarantees a
non-empty description group). -/
def parseEventLine (line : List Char) : Option FinancialEvent :=
  scanEventLine (trimCh line)

/-- Is `y` a Gregorian leap year? -/
def isLeapYear (y : Int) : Bool :=
  (decide (y % 4 = 0) && !decide (y % 100 = 0)) || decide (y % 400 = 0)

/-- Days in month `m` of year `y`. -/
def daysInMonth (y : Int) (m : Nat) : Nat :=
  if m = 1 || m = 3 || m = 5 || m = 7 || m = 8 || m = 10 || m = 12 then 31
  else if m = 4 || m = 6 || m = 9 || m = 11 then 30
  else if isLeapYear y then 29 else 28

/-- `new Date(s).getTime()` for a ten-character `YYYY-MM-DD` string: a
conforming ISO date parses as UTC midnight; out-of-bounds month/day values
(e.g. `2024-99-99` or `2024-02-30`) give an Invalid Date, i.e. NaN,
modelled as `none`. -/
def jsDateMs (s : String) : Option Int :=
  match s.data with
  | [y1, y2, y3, y4, s1, m1, m2, s2, d1, d2] =>
    if y1.isDigit && y2.isDigit && y3.isDigit && y4.isDigit && s1 = '-' &&
       m1.isDigit && m2.isDigit && s2 = '-' && d1.isDigit && d2.isDigit then
      let y : Nat := ((digitVal y1 * 10 + digitVal y2) * 10 + digitVal y3) * 10 + digitVal y4
      let mo : Nat := digitVal m1 * 10 + digitVal m2
      let da : Nat := digitVal d1 * 10 + digitVal d2
      if 1 ≤ mo && mo ≤ 12 && 1 ≤ da && da ≤ daysInMonth (y : Int) mo then
        some (daysFromCivil (y : Int) mo da * 86400000)
      else none
    else none
  | _ => none

/-- The comparator `(a, b) => new Date(a.date).getTime() - new
Date(b.date).getTime()` as a "comes-no-later" test: a NaN difference is
treated as `+0` by `Array.prototype.sort`, i.e. as a tie. -/
def evLe (a b : FinancialEvent) : Bool :=
  match jsDateMs a.date, jsDateMs b.date with
  | some x, some y => decide (x ≤ y)
  | _, _ => true

/-- Sort key of an event; invalid dates collapse to 0 (only used under a
hypothesis that all dates are valid). -/
def evKey (e : FinancialEvent) : Int := (jsDateMs e.date).getD 0

/-- Key-based comparator, equal to `evLe` on valid-date events. -/
def evKeyLe (a b : FinancialEvent) : Bool := decide (evKey a ≤ evKey b)

/-- The `events.push(...)` loop body of `parseFinancialEvents`. -/
def pushEvent (acc : List FinancialEvent) (line : List Char) : List FinancialEvent :=
  match parseEventLine line with
  | some e => acc ++ [e]
  | none => acc

/-- `PerplexityService.parseFinancialEvents`: collect the matching lines in
order, sort by date (stable sort with the JS comparator) and
`slice(0, 10)`.  The `try`/`catch` around the loop is dead for string
input — none of the string operations inside can throw. -/
def parseFinancialEvents (content : String) : List FinancialEvent :=
  let events := (jsLines content).foldl pushEvent []
  (msortBy evLe events).take 10

/-- Reference form of the kept events: exactly the lines matching the event
regex, in order and with multiplicity. -/
def keptEvents (content : String) : List FinancialEvent :=
  (jsLines content).filterMap parseEventLine

/-- `StockAnalysis` of `perplexity.ts`. -/
structure StockAnalysis where
  ticker : String
  recentNews : List String
  majorEvents : List String
  valuationAssessment : List String
  events : List FinancialEvent
  lastUpdated : String
deriving DecidableEq

/-- `PerplexityService.assignToSection`: push the cleaned section content
(items with non-blank trim) onto the array selected by the section tag. -/
def assignToSection (sec : String) (content : List String)
    (recentNews majorEvents valuationAssessment : List String) :
    List String × List String × List String :=
  let cleanContent := content.filter (fun item => !(trimCh item.data).isEmpty)
  if sec = "recent" then (recentNews ++ cleanContent, majorEvents, valuationAssessment)
  else if sec = "events" then (recentNews, majorEvents ++ cleanContent, valuationAssessment)
  else if sec = "valuation" then (recentNews, majorEvents, valuationAssessment ++ cleanContent)
  else (recentNews, majorEvents, valuationAssessment)

/-- Loop state of `parseAnalysis`: `currentSection`, `sectionContent`, and
the three accumulated arrays. -/
structure AnState where
  cur : String
  sec : List String
  rn : List String
  me : List String
  va : List String
deriving DecidableEq

/-- The `if (currentSection && sectionContent.length > 0)` flush that runs
before each new header and once after the loop. -/
def anFlush (st : AnState) : AnState :=
  if decide (st.cur ≠ "") && !st.sec.isEmpty then
    match assignToSection st.cur st.sec st.rn st.me st.va with
    | (rn, me, va) => ⟨st.cur, st.sec, rn, me, va⟩
  else st

/-- Header test for the recent-news section:
`trimmedLine.toLowerCase().includes('recent news') || ...includes('1.')`. -/
def isRecentHeader (t : List Char) : Bool :=
  containsSub (lowerCh t) "recent news".data || containsSub (lowerCh t) "1.".data

/-- Header test for the major-events section (`'major events'` / `'2.'`). -/
def isEventsHeader (t : List Char) : Bool :=
  containsSub (lowerCh t) "major events".data || containsSub (lowerCh t) "2.".data

/-- Header test for the valuation section (`'valuation'` / `'3.'`). -/
def isValuationHeader (t : List Char) : Bool :=
  containsSub (lowerCh t) "valuation".data || containsSub (lowerCh t) "3.".data

/-- `trimmedLine.startsWith('•') || startsWith('-') || startsWith('*')`. -/
def isBulletStart (t : List Char) : Bool :=
  match t with
  | c :: _ => c = '•' || c = '-' || c = '*'
  | [] => false

/-- `trimmedLine.replace(/^[•\-*]\s*\x2f, '')`: one leading bullet character
and the whitespace after it are removed. -/
def stripBullet (t : List Char) : List Char :=
  match t with
  | c :: rest => if c = '•' || c = '-' || c = '*' then rest.dropWhile jsIsWs else t
  | [] => t

/-- One loop iteration of `parseAnalysis` over a (non-blank) line. -/
def anStep (st : AnState) (line : List Char) : AnState :=
  let t := trimCh line
  if isRecentHeader t then
    let st1 := anFlush st
    ⟨"recent", [], st1.rn, st1.me, st1.va⟩
  else if isEventsHeader t then
    let st1 := anFlush st
    ⟨"events", [], st1.rn, st1.me, st1.va⟩
  else if isValuationHeader t then
    let st1 := anFlush st
    ⟨"valuation", [], st1.rn, st1.me, st1.va⟩
  else if isBulletStart t then
    ⟨st.cur, st.sec ++ [(⟨stripBullet t⟩ : String)], st.rn, st.me, st.va⟩
  else if decide (t.length > 10) && decide (st.cur ≠ "") then
    ⟨st.cur, st.sec ++ [(⟨t⟩ : String)], st.rn, st.me, st.va⟩
  else st

/-- Did some header test match this line?  (The heuristic parse "yields
zero sections" exactly when no line passes any of the three tests.) -/
def lineMatchesHeader (line : List Char) : Bool :=
  isRecentHeader (trimCh line) || isEventsHeader (trimCh line) ||
    isValuationHeader (trimCh line)

/-- `PerplexityService.parseAnalysis` (try-branch plus the placeholder
fill-in).  The string operations of the try-branch cannot throw for a
string argument, so the catch-branch (`fallbackThirds` below) is
unreachable; `lastUpdated` (`new Date().toISOString()`) is passed in. -/
def parseAnalysis (ticker content nowIso : String) : StockAnalysis :=
  let st := (jsLines content).foldl anStep ⟨"", [], [], [], []⟩
  let st2 := anFlush st
  let recentNews := if st2.rn.isEmpty then ["No recent news available"] else st2.rn
  let majorEvents := if st2.me.isEmpty then ["No major events identified"] else st2.me
  let valuationAssessment :=
    if st2.va.isEmpty then ["Valuation assessment unavailable"] else st2.va
  ⟨ticker, recentNews, majorEvents, valuationAssessment, [], nowIso⟩

/-- The catch-branch of `parseAnalysis`: split the raw content into three
equal-by-`Math.ceil(n/3)` contiguous slices of lines, each slice trimmed
and blank-filtered. -/
def fallbackThirds (content : String) : List String × List String × List String :=
  let allLines := (splitOnCh '\n' content.data).filter (fun l => !(trimCh l).isEmpty)
  let third := (allLines.length + 2) / 3
  let clean := fun (ls : List (List Char)) =>
    ((ls.map trimCh).filter (fun l => !l.isEmpty)).map (fun l => (⟨l⟩ : String))
  (clean (allLines.take third), clean ((allLines.drop third).take third),
   clean (allLines.drop (2 * third)))

/-- Outcome of one Perplexity chat-completions call, as distinguished by
`getFinancialEvents`: transport failure (`fetch` rejecting), non-OK HTTP
status, missing `choices`, empty `message.content`, or the content text. -/
inductive AiUpstream where
  | httpError (status : Nat) (body : String)
  | networkFailure (msg : String)
  | noChoices
  | emptyContent
  | content (text : String)

/-- The `try`-block of `PerplexityService.getFinancialEvents`: cache check,
upstream call, parse, cache write.  Every `throw` is an `.error`; the
database state is returned on both paths (no write precedes a throw).
The fire-and-forget cost-metering call does not touch the cache. -/
def getFinancialEventsBody (db : CacheDB (List FinancialEvent)) (nowMs : Int)
    (ticker : String) (up : AiUpstream) :
    Except String (List FinancialEvent) × CacheDB (List FinancialEvent) :=
  let upper := jsToUpper ticker
  match getCacheData db nowMs upper "events" with
  | some cached => (.ok cached, db)
  | none =>
    match up with
    | .httpError status body =>
      (.error ("Perplexity API error (" ++ toString status ++ "): " ++ body), db)
    | .networkFailure msg => (.error msg, db)
    | .noChoices => (.error "No events response from Perplexity API", db)
    | .emptyContent => (.error "Empty events response from Perplexity API", db)
    | .content text =>
      let events := parseFinancialEvents text
      (.ok events, (setCacheData db nowMs upper "events" events 24).2)

/-- `PerplexityService.getFinancialEvents`: the catch-all returns `[]`
instead of re-raising. -/
def getFinancialEvents (db : CacheDB (List FinancialEvent)) (nowMs : Int)
    (ticker : String) (up : AiUpstream) :
    List FinancialEvent × CacheDB (List FinancialEvent) :=
  match getFinancialEventsBody db nowMs ticker up with
  | (.ok events, db2) => (events, db2)
  | (.error _, db2) => ([], db2)

/-- Did the upstream call fail (every case except received content)? -/
def aiUpstreamFailed : AiUpstream → Bool
  | .content _ => false
  | _ => true

/-- One point of the historical chart (`ChartDataPoint` of
`alpha-vantage.ts`): the `YYYY-MM-DD` key is represented by its epoch value
`new Date(date).getTime()` (the only use the claims make of it), the
`parseFloat`-ed close price by an integer carrier. -/
structure ChartDataPoint where
  dateMs : Int
  price : Int
deriving DecidableEq

/-- Outcome of one Alpha Vantage call, as distinguished by the service:
non-OK HTTP status, `"Error Message"`, `"Note"`, `"Information"`, or the
JSON payload. -/
inductive AvResponse (ρ : Type) where
  | httpError (status : Nat)
  | errorMessage
  | note
  | information
  | payload (r : ρ)

/-- `AlphaVantageService.validateSymbol`: cache check on category
`validation`, then upstream search.  `bestMatches` may be absent
(`data.bestMatches?.find(...)`), hence `Option`; a match holds the
`"1. symbol"` field.  `"Error Message"` caches and returns `false`;
`"Note"`/`"Information"` throw; a result `!!exactMatch` is cached. -/
def validateSymbol (db : CacheDB Bool) (nowMs : Int) (symbol : String)
    (up : AvResponse (Option (List String))) : Except String Bool × CacheDB Bool :=
  let upper := jsToUpper symbol
  match getCacheData db nowMs upper "validation" with
  | some b => (.ok b, db)
  | none =>
    match up with
    | .httpError status => (.error ("HTTP error! status: " ++ toString status), db)
    | .errorMessage => (.ok false, (setCacheData db nowMs upper "validation" false 24).2)
    | .note => (.error "API rate limit exceeded. Please try again later.", db)
    | .information =>
      (.error "API rate limit exceeded. Free tier allows 25 requests per day.", db)
    | .payload bestMatches =>
      let isValid := (bestMatches.getD []).any (fun m => decide (jsToUpper m = upper))
      (.ok isValid, (setCacheData db nowMs upper "validation" isValid 24).2)

/-- `AlphaVantageService.filterByTimeRange`: cutoff is `now` minus 30, 90,
365 or 5·365 days (ms); `new Date(point.date) >= cutoffDate`. -/
def filterByTimeRange (data : List ChartDataPoint) (timeRange : String)
    (nowMs : Int) : List ChartDataPoint :=
  let cutoffDate : Int :=
    if timeRange = "1m" then nowMs - 30 * 86400000
    else if timeRange = "3m" then nowMs - 90 * 86400000
    else if timeRange = "1y" then nowMs - 365 * 86400000
    else nowMs - 5 * 365 * 86400000
  data.filter (fun point => decide (cutoffDate ≤ point.dateMs))

/-- Comparator of the historical sort:
`(a, b) => new Date(a.date).getTime() - new Date(b.date).getTime()`. -/
def cdpLe (a b : ChartDataPoint) : Bool := decide (a.dateMs ≤ b.dateMs)

/-- `AlphaVantageService.getHistoricalData`: cache check on category
`historical_<range>`; on miss the upstream daily series (its
`Object.entries` in unspecified order, hence quantified) is sorted
ascending by date, filtered to the look-back window, cached for 24h and
returned.  `.payload none` is a response without the time-series object. -/
def getHistoricalData (db : CacheDB (List ChartDataPoint)) (nowMs : Int)
    (symbol timeRange : String) (up : AvResponse (Option (List ChartDataPoint))) :
    Except String (List ChartDataPoint) × CacheDB (List ChartDataPoint) :=
  let upper := jsToUpper symbol
  let cacheKey := "historical_" ++ timeRange
  match getCacheData db nowMs upper cacheKey with
  | some cached => (.ok cached, db)
  | none =>
    match up with
    | .httpError status => (.error ("HTTP error! status: " ++ toString status), db)
    | .errorMessage => (.error ("Invalid symbol: " ++ upper), db)
    | .note => (.error "API rate limit exceeded. Please try again later.", db)
    | .information =>
      (.error "API rate limit exceeded. Free tier allows 25 requests per day.", db)
    | .payload none => (.error ("No time series data available for " ++ upper), db)
    | .payload (some entries) =>
      let chartData := msortBy cdpLe entries
      let filteredData := filterByTimeRange chartData timeRange nowMs
      (.ok filteredData, (setCacheData db nowMs upper cacheKey filteredData 24).2)

/-- Where a `loadNewsForSelectedStock` invocation for the selected ticker
stands.  `ready`: invoked, its synchronous prefix (guard check, guard add,
cache check, issuing the fetch) not yet run.  `inflight`: suspended at
`await fetch`.  `settling`: the inner `getNewsAnalysisOnly` returned
synchronously from cache, the continuation after `await` (including the
`finally`) still pending as a microtask.  `done`: finished. -/
inductive TaskPhase where
  | ready
  | inflight
  | settling
  | done
deriving DecidableEq

/-- State of the dedup guard scenario for one ticker and two invocations A
and B: `guard` is `ongoingNewsCalls.has(ticker)`, `cached` whether the
`analysis` cache holds the ticker, `calls` the number of upstream fetches
issued. -/
structure GuardState where
  guard : Bool
  cached : Bool
  calls : Nat
  tA : TaskPhase
  tB : TaskPhase
deriving DecidableEq

/-- Phase of invocation `i` (`true` = A, `false` = B). -/
def taskOf (s : GuardState) (i : Bool) : TaskPhase := if i then s.tA else s.tB

/-- Replace the phase of invocation `i`. -/
def setTask (s : GuardState) (i : Bool) (p : TaskPhase) : GuardState :=
  if i then { s with tA := p } else { s with tB := p }

/-- One cooperative step of invocation `i`.  A `ready` task runs the
synchronous prefix of `loadNewsForSelectedStock`: if the ticker is in
`ongoingNewsCalls` it short-circuits ("refresh already in progress");
otherwise it adds the ticker and runs `getNewsAnalysisOnly` up to its first
`await` — a cache hit returns at once (`settling`), a miss issues the
upstream fetch (`calls + 1`, `inflight`).  A suspended task resumes: a
successful fetch writes the cache, a failed one does not (`fetchOk`), and
the `finally` block deletes the ticker from `ongoingNewsCalls` on success,
thrown error and cache short-circuit alike. -/
def guardStep (s : GuardState) (i : Bool) (fetchOk : Bool) : GuardState :=
  match taskOf s i with
  | .ready =>
    if s.guard then setTask s i .done
    else if s.cached then setTask { s with guard := true } i .settling
    else setTask { s with guard := true, calls := s.calls + 1 } i .inflight
  | .inflight =>
    setTask { s with guard := false, cached := s.cached || fetchOk } i .done
  | .settling => setTask { s with guard := false } i .done
  | .done => s

/-- Run a schedule of cooperative steps. -/
def guardRun (s : GuardState) (sched : List (Bool × Bool)) : GuardState :=
  sched.foldl (fun st step => guardStep st step.1 step.2) s

/-- Initial state for an uncached ticker: no guard entry, no cache entry,
no calls, both invocations pending. -/
def guardInit : GuardState := ⟨false, false, 0, .ready, .ready⟩


-- ===== THEOREMS =====

theorem mem_mergeFuel {le : α → α → Bool} :
    ∀ (n : Nat) (as bs : List α) (x : α), as.length + bs.length ≤ n →
      (x ∈ mergeFuel le n as bs ↔ x ∈ as ∨ x ∈ bs) := by
  intro n
  induction n with
  | zero =>
    intro as bs x h
    match as, bs, h with
    | [], bs, _ => simp [mergeFuel]
    | a :: as, [], _ => simp [mergeFuel]
  | succ n ih =>
    intro as bs x h
    match as, bs with
    | [], bs => simp [mergeFuel]
    | a :: as, [] => simp [mergeFuel]
    | a :: as, b :: bs =>
      rw [mergeFuel]
      split
      · simp only [List.mem_cons,
          ih as (b :: bs) x (by simp at h ⊢; omega), List.mem_cons]
        tauto
      · simp only [List.mem_cons,
          ih (a :: as) bs x (by simp at h ⊢; omega), List.mem_cons]
        tauto

theorem mem_mergeBy {le : α → α → Bool} (as bs : List α) (x : α) :
    x ∈ mergeBy le as bs ↔ x ∈ as ∨ x ∈ bs :=
  mem_mergeFuel (as.length + bs.length) as bs x (Nat.le_refl _)

theorem pairwise_mergeFuel {le : α → α → Bool}
    (htr : ∀ a b c, le a b = true → le b c = true → le a c = true)
    (hto : ∀ a b, le a b = true ∨ le b a = true) :
    ∀ (n : Nat) (as bs : List α), as.length + bs.length ≤ n →
      as.Pairwise (fun a b => le a b = true) →
      bs.Pairwise (fun a b => le a b = true) →
      (mergeFuel le n as bs).Pairwise (fun a b => le a b = true) := by
  intro n
  induction n with
  | zero =>
    intro as bs h ha hb
    match as, bs, h with
    | [], bs, _ => simpa [mergeFuel] using hb
    | a :: as, [], _ => simpa [mergeFuel] using ha
  | succ n ih =>
    intro as bs h ha hb
    match as, bs with
    | [], bs => simpa [mergeFuel] using hb
    | a :: as, [] => simpa [mergeFuel] using ha
    | a :: as, b :: bs =>
      rw [mergeFuel]
      rw [List.pairwise_cons] at ha hb
      split
      · rename_i hab
        rw [List.pairwise_cons]
        refine ⟨?_, ih as (b :: bs) (by simp at h ⊢; omega) ha.2
          (List.pairwise_cons.mpr hb)⟩
        intro y hy
        rcases (mem_mergeFuel n as (b :: bs) y (by simp at h ⊢; omega)).mp hy with hy | hy
        · exact ha.1 y hy
        · rcases List.mem_cons.mp hy with rfl | hy
          · exact hab
          · exact htr a b y hab (hb.1 y hy)
      · rename_i hab
        have hba : le b a = true := by
          rcases hto a b with hx | hx
          · exact absurd hx hab
          · exact hx
        rw [List.pairwise_cons]
        refine ⟨?_, ih (a :: as) bs (by simp at h ⊢; omega)
          (List.pairwise_cons.mpr ha) hb.2⟩
        intro y hy
        rcases (mem_mergeFuel n (a :: as) bs y (by simp at h ⊢; omega)).mp hy with hy | hy
        · rcases List.mem_cons.mp hy with rfl | hy
          · exact hba
          · exact htr b a y hba (ha.1 y hy)
        · exact hb.1 y hy

theorem pairwise_mergeBy {le : α → α → Bool}
    (htr : ∀ a b c, le a b = true → le b c = true → le a c = true)
    (hto : ∀ a b, le a b = true ∨ le b a = true)
    (as bs : List α) (ha : as.Pairwise (fun a b => le a b = true))
    (hb : bs.Pairwise (fun a b => le a b = true)) :
    (mergeBy le as bs).Pairwise (fun a b => le a b = true) :=
  pairwise_mergeFuel htr hto (as.length + bs.length) as bs (Nat.le_refl _) ha hb

theorem mergeFuel_congr {le₁ le₂ : α → α → Bool} :
    ∀ (n : Nat) (as bs : List α), (∀ a ∈ as, ∀ b ∈ bs, le₁ a b = le₂ a b) →
      mergeFuel le₁ n as bs = mergeFuel le₂ n as bs := by
  intro n
  induction n with
  | zero =>
    intro as bs h
    match as, bs with
    | [], bs => simp [mergeFuel]
    | a :: as, [] => simp [mergeFuel]
    | a :: as, b :: bs => simp [mergeFuel]
  | succ n ih =>
    intro as bs h
    match as, bs with
    | [], bs => simp [mergeFuel]
    | a :: as, [] => simp [mergeFuel]
    | a :: as, b :: bs =>
      rw [mergeFuel, mergeFuel]
      rw [h a (List.mem_cons_self a as) b (List.mem_cons_self b bs)]
      split
      · rw [ih as (b :: bs) (fun x hx y hy => h x (List.mem_cons_of_mem a hx) y hy)]
      · rw [ih (a :: as) bs (fun x hx y hy => h x hx y (List.mem_cons_of_mem b hy))]

theorem mergeBy_congr {le₁ le₂ : α → α → Bool} (as bs : List α)
    (h : ∀ a ∈ as, ∀ b ∈ bs, le₁ a b = le₂ a b) :
    mergeBy le₁ as bs = mergeBy le₂ as bs :=
  mergeFuel_congr (as.length + bs.length) as bs h

theorem msortFuel_two_or_more {le : α → α → Bool} (n : Nat) (a b : α) (l : List α) :
    msortFuel le (n + 1) (a :: b :: l) =
      mergeBy le (msortFuel le n ((a :: b :: l).take ((a :: b :: l).length / 2)))
        (msortFuel le n ((a :: b :: l).drop ((a :: b :: l).length / 2))) := by
  rw [msortFuel] <;> simp

theorem mem_msortFuel {le : α → α → Bool} :
    ∀ (n : Nat) (l : List α) (x : α), l.length ≤ n →
      (x ∈ msortFuel le n l ↔ x ∈ l) := by
  intro n
  induction n with
  | zero =>
    intro l x h
    match l, h with
    | [], _ => simp [msortFuel]
  | succ n ih =>
    intro l x h
    match l with
    | [] => simp [msortFuel]
    | [a] => simp [msortFuel]
    | a :: b :: rest =>
      rw [msortFuel_two_or_more, mem_mergeBy,
        ih _ x (by simp only [List.length_take]; simp at h ⊢; omega),
        ih _ x (by simp only [List.length_drop]; simp at h ⊢; omega),
        ← List.mem_append, List.take_append_drop]

theorem mem_msortBy {le : α → α → Bool} (l : List α) (x : α) :
    x ∈ msortBy le l ↔ x ∈ l :=
  mem_msortFuel l.length l x (Nat.le_refl _)

theorem pairwise_msortFuel {le : α → α → Bool}
    (htr : ∀ a b c, le a b = true → le b c = true → le a c = true)
    (hto : ∀ a b, le a b = true ∨ le b a = true) :
    ∀ (n : Nat) (l : List α), l.length ≤ n →
      (msortFuel le n l).Pairwise (fun a b => le a b = true) := by
  intro n
  induction n with
  | zero =>
    intro l h
    match l, h with
    | [], _ => simp [msortFuel]
  | succ n ih =>
    intro l h
    match l with
    | [] => simp [msortFuel]
    | [a] => simp [msortFuel]
    | a :: b :: rest =>
      rw [msortFuel_two_or_more]
      exact pairwise_mergeBy htr hto _ _
        (ih _ (by simp only [List.length_take]; simp at h ⊢; omega))
        (ih _ (by simp only [List.length_drop]; simp at h ⊢; omega))

theorem pairwise_msortBy {le : α → α → Bool}
    (htr : ∀ a b c, le a b = true → le b c = true → le a c = true)
    (hto : ∀ a b, le a b = true ∨ le b a = true) (l : List α) :
    (msortBy le l).Pairwise (fun a b => le a b = true) :=
  pairwise_msortFuel htr hto l.length l (Nat.le_refl _)

theorem msortFuel_congr {le₁ le₂ : α → α → Bool} :
    ∀ (n : Nat) (l : List α), l.length ≤ n →
      (∀ a ∈ l, ∀ b ∈ l, le₁ a b = le₂ a b) →
      msortFuel le₁ n l = msortFuel le₂ n l := by
  intro n
  induction n with
  | zero =>
    intro l h hc
    match l, h with
    | [], _ => simp [msortFuel]
  | succ n ih =>
    intro l h hc
    match l with
    | [] => simp [msortFuel]
    | [a] => simp [msortFuel]
    | a :: b :: rest =>
      have hlt : ((a :: b :: rest).take ((a :: b :: rest).length / 2)).length ≤ n := by
        simp only [List.length_take]; simp at h ⊢; omega
      have hld : ((a :: b :: rest).drop ((a :: b :: rest).length / 2)).length ≤ n := by
        simp only [List.length_drop]; simp at h ⊢; omega
      have htake := ih _ hlt
        (fun x hx y hy => hc x (List.mem_of_mem_take hx) y (List.mem_of_mem_take hy))
      have hdrop := ih _ hld
        (fun x hx y hy => hc x (List.mem_of_mem_drop hx) y (List.mem_of_mem_drop hy))
      rw [msortFuel_two_or_more, msortFuel_two_or_more, htake, hdrop]
      exact mergeBy_congr _ _ (fun x hx y hy =>
        hc x (List.mem_of_mem_take ((mem_msortFuel n _ x hlt).mp hx))
          y (List.mem_of_mem_drop ((mem_msortFuel n _ y hld).mp hy)))

theorem msortBy_congr {le₁ le₂ : α → α → Bool} (l : List α)
    (h : ∀ a ∈ l, ∀ b ∈ l, le₁ a b = le₂ a b) :
    msortBy le₁ l = msortBy le₂ l :=
  msortFuel_congr l.length l (Nat.le_refl _) h

theorem charToUpper_idem (c : Char) : c.toUpper.toUpper = c.toUpper := by
  unfold Char.toUpper
  by_cases h : c.toNat ≥ 97 ∧ c.toNat ≤ 122
  · rw [if_pos h]
    have hv : (Char.ofNat (c.toNat - 32)).toNat = c.toNat - 32 := by
      rw [Char.ofNat, dif_pos (Or.inl (by omega))]
      rfl
    rw [if_neg]
    rw [hv]
    omega
  · rw [if_neg h, if_neg h]

theorem jsToUpper_idem (s : String) : jsToUpper (jsToUpper s) = jsToUpper s := by
  unfold jsToUpper
  rw [List.map_map]
  have : (Char.toUpper ∘ Char.toUpper) = Char.toUpper := by
    funext c
    exact charToUpper_idem c
  rw [this]

/-- Claim C1 — the cache stores an ISO-8601 `expires_at`
(`YYYY-MM-DDTHH:mm:ss.sssZ`) while `getCacheData` compares it as TEXT
against SQLite's `CURRENT_TIMESTAMP` (`YYYY-MM-DD HH:MM:SS`); at index 10
the byte `'T'` (0x54) exceeds `' '` (0x20), so any expiry on the read's
UTC day still compares "in the future".  Concretely: a payload put at
2024-01-01T00:00:00Z with a 1-hour TTL is still returned by `get` two
hours later, though the TTL has elapsed — the claim's "once the TTL has
elapsed the same get returns absent" fails on the code. -/
theorem getCacheData_returns_payload_after_ttl_elapsed :
    (toISOString (1704067200000 + 3600000) = "2024-01-01T01:00:00.000Z" ∧
      sqliteNowString (1704067200000 + 7200000) = "2024-01-01 02:00:00") ∧
    getCacheData (setCacheData ([] : CacheDB String) 1704067200000
        "AAPL" "quote" "payload" 1).2 (1704067200000 + 7200000) "AAPL" "quote"
      = some "payload" := by
  decide

/-- Claim C3 — `clearSpecificCache(entityKey, categoryA)` deletes exactly
the rows of `(entityKey.toUpperCase(), categoryA)` (regardless of their
expiry, which the `DELETE` never consults), reports that a row was
removed, and leaves the sibling `categoryB` row and every other row in
place; no rows are added. -/
theorem clearSpecificCache_frame {α : Type} (db : CacheDB α) (t catA catB : String)
    (hAB : catA ≠ catB) (rowA : CacheRow α) (hA : rowA ∈ db)
    (hAt : rowA.ticker = jsToUpper t) (hAc : rowA.cacheType = catA)
    (rowB : CacheRow α) (hB : rowB ∈ db) (hBt : rowB.ticker = jsToUpper t)
    (hBc : rowB.cacheType = catB) :
    (clearSpecificCache db t catA).1 = true ∧
    (∀ row ∈ (clearSpecificCache db t catA).2,
      ¬(row.ticker = jsToUpper t ∧ row.cacheType = catA)) ∧
    rowB ∈ (clearSpecificCache db t catA).2 ∧
    (∀ row ∈ db, ¬(row.ticker = jsToUpper t ∧ row.cacheType = catA) →
      row ∈ (clearSpecificCache db t catA).2) ∧
    (∀ row ∈ (clearSpecificCache db t catA).2, row ∈ db) := by
  refine ⟨?_, ?_, ?_, ?_, ?_⟩
  · have hex : (db.filter
        (fun row => !rowKeyMatches (jsToUpper t) catA row)).length < db.length :=
      List.length_filter_lt_length_iff_exists.mpr
        ⟨rowA, hA, by simp [rowKeyMatches, hAt, hAc]⟩
    simp only [clearSpecificCache]
    exact decide_eq_true hex
  · intro row hrow
    have := (List.mem_filter.mp hrow).2
    simp only [rowKeyMatches, Bool.not_eq_true', Bool.and_eq_false_imp,
      decide_eq_true_eq, decide_eq_false_iff_not] at this
    rintro ⟨h1, h2⟩
    exact (this h1) h2
  · refine List.mem_filter.mpr ⟨hB, ?_⟩
    simp [rowKeyMatches, hBt, hBc]
    intro h
    exact absurd h.symm hAB
  · intro row hrow hno
    refine List.mem_filter.mpr ⟨hrow, ?_⟩
    simp only [rowKeyMatches, Bool.not_eq_true', Bool.and_eq_false_imp,
      decide_eq_true_eq, decide_eq_false_iff_not]
    intro h1
    exact fun h2 => hno ⟨h1, h2⟩
  · intro row hrow
    exact (List.mem_filter.mp hrow).1

/-- Witness for C3 at a concrete two-row cache: clearing `analysis` for
`aapl` removes only the `analysis` row and keeps the `events` row. -/
theorem clearSpecificCache_frame_witness :
    (clearSpecificCache
        ([⟨"AAPL", "analysis", "x", "c", "e"⟩, ⟨"AAPL", "events", "y", "c", "e"⟩] :
          CacheDB String) "aapl" "analysis").1 = true ∧
    (∀ row ∈ (clearSpecificCache
        ([⟨"AAPL", "analysis", "x", "c", "e"⟩, ⟨"AAPL", "events", "y", "c", "e"⟩] :
          CacheDB String) "aapl" "analysis").2,
      ¬(row.ticker = jsToUpper "aapl" ∧ row.cacheType = "analysis")) ∧
    (⟨"AAPL", "events", "y", "c", "e"⟩ : CacheRow String) ∈ (clearSpecificCache
        ([⟨"AAPL", "analysis", "x", "c", "e"⟩, ⟨"AAPL", "events", "y", "c", "e"⟩] :
          CacheDB String) "aapl" "analysis").2 ∧
    (∀ row ∈ ([⟨"AAPL", "analysis", "x", "c", "e"⟩, ⟨"AAPL", "events", "y", "c", "e"⟩] :
          CacheDB String),
      ¬(row.ticker = jsToUpper "aapl" ∧ row.cacheType = "analysis") →
      row ∈ (clearSpecificCache
        ([⟨"AAPL", "analysis", "x", "c", "e"⟩, ⟨"AAPL", "events", "y", "c", "e"⟩] :
          CacheDB String) "aapl" "analysis").2) ∧
    (∀ row ∈ (clearSpecificCache
        ([⟨"AAPL", "analysis", "x", "c", "e"⟩, ⟨"AAPL", "events", "y", "c", "e"⟩] :
          CacheDB String) "aapl" "analysis").2,
      row ∈ ([⟨"AAPL", "analysis", "x", "c", "e"⟩, ⟨"AAPL", "events", "y", "c", "e"⟩] :
          CacheDB String)) :=
  clearSpecificCache_frame _ "aapl" "analysis" "events" (by decide)
    ⟨"AAPL", "analysis", "x", "c", "e"⟩ (by decide) (by decide) rfl
    ⟨"AAPL", "events", "y", "c", "e"⟩ (by decide) (by decide) rfl

/-- Claim C8 — adding a ticker that is already on the watchlist (after
uppercase normalization) returns `false` and leaves the table, and hence
`getAllStocks`' length and order, unchanged. -/
theorem addStock_duplicate_noop (db : List WatchRow) (nowMs : Int) (t : String)
    (r : WatchRow) (hr : r ∈ db) (ht : r.ticker = jsToUpper t) :
    (addStock db nowMs t).1 = false ∧ (addStock db nowMs t).2 = db ∧
    getAllStocks (addStock db nowMs t).2 = getAllStocks db ∧
    (getAllStocks (addStock db nowMs t).2).length = (getAllStocks db).length := by
  have hany : db.any (fun x => decide (x.ticker = jsToUpper t)) = true :=
    List.any_eq_true.mpr ⟨r, hr, by simp [ht]⟩
  refine ⟨?_, ?_, ?_, ?_⟩ <;> simp [addStock, hany]

/-- Witness for C8: re-adding `aapl` to a watchlist already holding `AAPL`
is rejected and changes nothing. -/
theorem addStock_duplicate_noop_witness :
    (addStock [⟨"AAPL", 0, none, none, none, none⟩] 5 "aapl").1 = false ∧
    (addStock [⟨"AAPL", 0, none, none, none, none⟩] 5 "aapl").2 =
      [⟨"AAPL", 0, none, none, none, none⟩] ∧
    getAllStocks (addStock [⟨"AAPL", 0, none, none, none, none⟩] 5 "aapl").2 =
      getAllStocks [⟨"AAPL", 0, none, none, none, none⟩] ∧
    (getAllStocks (addStock [⟨"AAPL", 0, none, none, none, none⟩] 5 "aapl").2).length =
      (getAllStocks [⟨"AAPL", 0, none, none, none, none⟩]).length :=
  addStock_duplicate_noop _ 5 "aapl" ⟨"AAPL", 0, none, none, none, none⟩
    (by decide) (by decide)

/-- Claim C4 — with a cache miss on category `events`, every failing
upstream outcome (transport failure, non-OK HTTP status, missing choices,
empty content) makes the `try`-block of `getFinancialEvents` throw, and
the surrounding catch converts that into an empty list instead of
re-raising; the cache is left untouched (no write precedes a throw). -/
theorem getFinancialEvents_failure_returns_empty
    (db : CacheDB (List FinancialEvent)) (nowMs : Int) (ticker : String)
    (up : AiUpstream)
    (hmiss : getCacheData db nowMs (jsToUpper ticker) "events" = none)
    (hfail : aiUpstreamFailed up = true) :
    (∃ msg, (getFinancialEventsBody db nowMs ticker up).1 = Except.error msg) ∧
    getFinancialEvents db nowMs ticker up = ([], db) := by
  cases up with
  | httpError status body =>
    refine ⟨⟨"Perplexity API error (" ++ toString status ++ "): " ++ body, ?_⟩, ?_⟩ <;>
      simp [getFinancialEventsBody, getFinancialEvents, hmiss]
  | networkFailure msg =>
    refine ⟨⟨msg, ?_⟩, ?_⟩ <;>
      simp [getFinancialEventsBody, getFinancialEvents, hmiss]
  | noChoices =>
    refine ⟨⟨"No events response from Perplexity API", ?_⟩, ?_⟩ <;>
      simp [getFinancialEventsBody, getFinancialEvents, hmiss]
  | emptyContent =>
    refine ⟨⟨"Empty events response from Perplexity API", ?_⟩, ?_⟩ <;>
      simp [getFinancialEventsBody, getFinancialEvents, hmiss]
  | content text => simp [aiUpstreamFailed] at hfail

/-- Witness for C4: an uncached ticker with a missing-choices upstream
response yields an empty event list and an unchanged (empty) cache. -/
theorem getFinancialEvents_failure_returns_empty_witness :
    (∃ msg, (getFinancialEventsBody ([] : CacheDB (List FinancialEvent))
        1704067200000 "AAPL" AiUpstream.noChoices).1 = Except.error msg) ∧
    getFinancialEvents ([] : CacheDB (List FinancialEvent))
        1704067200000 "AAPL" AiUpstream.noChoices = ([], []) :=
  getFinancialEvents_failure_returns_empty [] 1704067200000 "AAPL"
    AiUpstream.noChoices (by decide) (by decide)

/-- Claim C7 — with a cache miss on category `validation`:
a search payload returns `.ok` of exactly "some result is an exact
case-insensitive match"; any `false` outcome — including the
`"Error Message"` branch — writes a `false` row into the validation
cache; the two rate-limit branches (`"Note"`, `"Information"`) propagate
as errors with the cache completely unchanged. -/
theorem validateSymbol_spec (db : CacheDB Bool) (nowMs : Int) (symbol : String)
    (hmiss : getCacheData db nowMs (jsToUpper symbol) "validation" = none) :
    (∀ bestMatches : Option (List String),
      (validateSymbol db nowMs symbol (.payload bestMatches)).1 =
        Except.ok ((bestMatches.getD []).any
          (fun m => decide (jsToUpper m = jsToUpper symbol))) ∧
      (((bestMatches.getD []).any
          (fun m => decide (jsToUpper m = jsToUpper symbol))) = true ↔
        ∃ m ∈ bestMatches.getD [], jsToUpper m = jsToUpper symbol)) ∧
    (∀ bestMatches : Option (List String),
      ((bestMatches.getD []).any
          (fun m => decide (jsToUpper m = jsToUpper symbol))) = false →
      ∃ row ∈ (validateSymbol db nowMs symbol (.payload bestMatches)).2,
        row.ticker = jsToUpper symbol ∧ row.cacheType = "validation" ∧
          row.data = false) ∧
    ((validateSymbol db nowMs symbol .errorMessage).1 = Except.ok false ∧
      ∃ row ∈ (validateSymbol db nowMs symbol .errorMessage).2,
        row.ticker = jsToUpper symbol ∧ row.cacheType = "validation" ∧
          row.data = false) ∧
    (validateSymbol db nowMs symbol .note =
      (Except.error "API rate limit exceeded. Please try again later.", db) ∧
     validateSymbol db nowMs symbol .information =
      (Except.error "API rate limit exceeded. Free tier allows 25 requests per day.",
        db)) := by
  refine ⟨?_, ?_, ⟨?_, ?_⟩, ?_, ?_⟩
  · intro bestMatches
    constructor
    · simp [validateSymbol, hmiss]
    · simp only [List.any_eq_true, decide_eq_true_eq]
  · intro bestMatches hfalse
    refine ⟨⟨jsToUpper (jsToUpper symbol), "validation",
      (bestMatches.getD []).any (fun m => decide (jsToUpper m = jsToUpper symbol)),
      sqliteNowString nowMs, toISOString (nowMs + 24 * 3600000)⟩, ?_, ?_, ?_, ?_⟩
    · simp [validateSymbol, hmiss, setCacheData]
    · exact jsToUpper_idem symbol
    · rfl
    · exact hfalse
  · simp [validateSymbol, hmiss]
  · refine ⟨⟨jsToUpper (jsToUpper symbol), "validation", false,
      sqliteNowString nowMs, toISOString (nowMs + 24 * 3600000)⟩, ?_, ?_, ?_, ?_⟩
    · simp [validateSymbol, hmiss, setCacheData]
    · exact jsToUpper_idem symbol
    · rfl
    · rfl
  · simp [validateSymbol, hmiss]
  · simp [validateSymbol, hmiss]

/-- Witness for C7 at a concrete empty cache: `aapl` against search
results `["MSFT", "aapl"]` (exact case-insensitive match present), the
negative-caching branches, and the rate-limit branches. -/
theorem validateSymbol_spec_witness :
    (∀ bestMatches : Option (List String),
      (validateSymbol ([] : CacheDB Bool) 1704067200000 "aapl"
          (.payload bestMatches)).1 =
        Except.ok ((bestMatches.getD []).any
          (fun m => decide (jsToUpper m = jsToUpper "aapl"))) ∧
      (((bestMatches.getD []).any
          (fun m => decide (jsToUpper m = jsToUpper "aapl"))) = true ↔
        ∃ m ∈ bestMatches.getD [], jsToUpper m = jsToUpper "aapl")) ∧
    (∀ bestMatches : Option (List String),
      ((bestMatches.getD []).any
          (fun m => decide (jsToUpper m = jsToUpper "aapl"))) = false →
      ∃ row ∈ (validateSymbol ([] : CacheDB Bool) 1704067200000 "aapl"
          (.payload bestMatches)).2,
        row.ticker = jsToUpper "aapl" ∧ row.cacheType = "validation" ∧
          row.data = false) ∧
    ((validateSymbol ([] : CacheDB Bool) 1704067200000 "aapl" .errorMessage).1 =
        Except.ok false ∧
      ∃ row ∈ (validateSymbol ([] : CacheDB Bool) 1704067200000 "aapl"
          .errorMessage).2,
        row.ticker = jsToUpper "aapl" ∧ row.cacheType = "validation" ∧
          row.data = false) ∧
    (validateSymbol ([] : CacheDB Bool) 1704067200000 "aapl" .note =
      (Except.error "API rate limit exceeded. Please try again later.", []) ∧
     validateSymbol ([] : CacheDB Bool) 1704067200000 "aapl" .information =
      (Except.error "API rate limit exceeded. Free tier allows 25 requests per day.",
        [])) :=
  validateSymbol_spec [] 1704067200000 "aapl" (by decide)

/-- Claim C5 — with a cache miss on `historical_1m`, `getHistoricalData`
for range `"1m"` returns a series in which every point's date is at least
`now - 30 days`, sorted ascending by date, and writes exactly that
filtered series (not the raw one) to the cache under `historical_1m`. -/
theorem getHistoricalData_1m_spec (db : CacheDB (List ChartDataPoint)) (nowMs : Int)
    (symbol : String) (entries : List ChartDataPoint)
    (hmiss : getCacheData db nowMs (jsToUpper symbol) "historical_1m" = none) :
    ∃ series : List ChartDataPoint,
      getHistoricalData db nowMs symbol "1m" (.payload (some entries)) =
        (Except.ok series,
          (setCacheData db nowMs (jsToUpper symbol) "historical_1m" series 24).2) ∧
      (∀ p ∈ series, nowMs - 30 * 86400000 ≤ p.dateMs) ∧
      series.Pairwise (fun a b => a.dateMs ≤ b.dateMs) ∧
      ∃ row ∈ (getHistoricalData db nowMs symbol "1m" (.payload (some entries))).2,
        row.ticker = jsToUpper symbol ∧ row.cacheType = "historical_1m" ∧
          row.data = series := by
  have hkey : ("historical_" ++ "1m" : String) = "historical_1m" := by decide
  refine ⟨filterByTimeRange (msortBy cdpLe entries) "1m" nowMs, ?_, ?_, ?_, ?_⟩
  · simp [getHistoricalData, hkey, hmiss]
  · intro p hp
    have h2 : p ∈ msortBy cdpLe entries ∧ nowMs ≤ p.dateMs + 2592000000 := by
      simpa [filterByTimeRange] using hp
    have := h2.2
    omega
  · have htr : ∀ a b c : ChartDataPoint,
        cdpLe a b = true → cdpLe b c = true → cdpLe a c = true := by
      intro a b c hab hbc
      simp only [cdpLe, decide_eq_true_eq] at *
      omega
    have hto : ∀ a b : ChartDataPoint, cdpLe a b = true ∨ cdpLe b a = true := by
      intro a b
      rcases le_total a.dateMs b.dateMs with h | h
      · exact Or.inl (by simpa [cdpLe] using h)
      · exact Or.inr (by simpa [cdpLe] using h)
    have hp := pairwise_msortBy htr hto entries
    have hp2 : (msortBy cdpLe entries).Pairwise (fun a b => a.dateMs ≤ b.dateMs) :=
      hp.imp (fun h => by simpa [cdpLe] using h)
    exact List.Pairwise.filter _ hp2
  · refine ⟨⟨jsToUpper (jsToUpper symbol), "historical_1m",
      filterByTimeRange (msortBy cdpLe entries) "1m" nowMs,
      sqliteNowString nowMs, toISOString (nowMs + 24 * 3600000)⟩,
      ?_, jsToUpper_idem symbol, rfl, rfl⟩
    simp [getHistoricalData, hkey, hmiss, setCacheData]

/-- Witness for C5 at a concrete input: a raw series with one fresh and
one ancient point (fetched at 2024-01-01T00:00:00Z) keeps only the fresh
point, sorted, and caches that filtered series. -/
theorem getHistoricalData_1m_spec_witness :
    ∃ series : List ChartDataPoint,
      getHistoricalData ([] : CacheDB (List ChartDataPoint)) 1704067200000
          "ibm" "1m" (.payload (some [⟨1704067200000, 5⟩, ⟨100, 7⟩])) =
        (Except.ok series,
          (setCacheData ([] : CacheDB (List ChartDataPoint)) 1704067200000
            (jsToUpper "ibm") "historical_1m" series 24).2) ∧
      (∀ p ∈ series, 1704067200000 - 30 * 86400000 ≤ p.dateMs) ∧
      series.Pairwise (fun a b => a.dateMs ≤ b.dateMs) ∧
      ∃ row ∈ (getHistoricalData ([] : CacheDB (List ChartDataPoint)) 1704067200000
          "ibm" "1m" (.payload (some [⟨1704067200000, 5⟩, ⟨100, 7⟩]))).2,
        row.ticker = jsToUpper "ibm" ∧ row.cacheType = "historical_1m" ∧
          row.data = series :=
  getHistoricalData_1m_spec [] 1704067200000 "ibm" [⟨1704067200000, 5⟩, ⟨100, 7⟩]
    (by decide)

theorem mkEvent_inv {date span rest : List Char} {e : FinancialEvent}
    (h : mkEvent date span rest = some e) :
    (e.impact = "positive" ∨ e.impact = "negative" ∨ e.impact = "neutral") ∧
    ∃ sp : List Char, e.description = ⟨(trimCh sp).take 50⟩ := by
  simp only [mkEvent] at h
  split at h
  · cases h
    exact ⟨Or.inl rfl, span, rfl⟩
  · split at h
    · cases h
      exact ⟨Or.inr (Or.inl rfl), span, rfl⟩
    · split at h
      · cases h
        exact ⟨Or.inr (Or.inr rfl), span, rfl⟩
      · cases h

theorem matchEventAt_inv {cs : List Char} {e : FinancialEvent}
    (h : matchEventAt cs = some e) :
    (e.impact = "positive" ∨ e.impact = "negative" ∨ e.impact = "neutral") ∧
    ∃ sp : List Char, e.description = ⟨(trimCh sp).take 50⟩ := by
  simp only [matchEventAt] at h
  split at h
  · cases h
  · split at h
    · split at h
      · cases h
      · split at h
        · exact mkEvent_inv h
        · cases h
    · cases h

theorem scanEventLine_inv :
    ∀ {cs : List Char} {e : FinancialEvent}, scanEventLine cs = some e →
      (e.impact = "positive" ∨ e.impact = "negative" ∨ e.impact = "neutral") ∧
      ∃ sp : List Char, e.description = ⟨(trimCh sp).take 50⟩ := by
  intro cs
  induction cs with
  | nil => intro e h; simp [scanEventLine] at h
  | cons c rest ih =>
    intro e h
    rw [scanEventLine] at h
    split at h
    · rename_i e1 heq
      cases h
      exact matchEventAt_inv heq
    · exact ih h

theorem parseEventLine_inv {line : List Char} {e : FinancialEvent}
    (h : parseEventLine line = some e) :
    (e.impact = "positive" ∨ e.impact = "negative" ∨ e.impact = "neutral") ∧
    ∃ sp : List Char, e.description = ⟨(trimCh sp).take 50⟩ :=
  scanEventLine_inv h

theorem foldl_pushEvent :
    ∀ (lines : List (List Char)) (acc : List FinancialEvent),
      lines.foldl pushEvent acc = acc ++ lines.filterMap parseEventLine := by
  intro lines
  induction lines with
  | nil => intro acc; simp
  | cons l ls ih =>
    intro acc
    rw [List.foldl_cons, List.filterMap_cons]
    cases hpe : parseEventLine l with
    | none => simp only [pushEvent, hpe]; rw [ih]
    | some e => simp only [pushEvent, hpe]; rw [ih]; simp

theorem parseFinancialEvents_eq (content : String) :
    parseFinancialEvents content = (msortBy evLe (keptEvents content)).take 10 := by
  unfold parseFinancialEvents keptEvents
  rw [foldl_pushEvent]
  simp

/-- Claim C10 — every event produced by `parseFinancialEvents` carries a
description of at most 50 characters, obtained by trimming the matched
description text and truncating it to its first 50 characters. -/
theorem parseFinancialEvents_description_bounded (content : String) :
    ∀ e ∈ parseFinancialEvents content, e.description.length ≤ 50 ∧
      ∃ sp : List Char, e.description = ⟨(trimCh sp).take 50⟩ := by
  intro e he
  rw [parseFinancialEvents_eq] at he
  have h2 : e ∈ keptEvents content :=
    (mem_msortBy _ _).mp (List.mem_of_mem_take he)
  obtain ⟨line, hline, hpe⟩ := List.mem_filterMap.mp h2
  obtain ⟨himp, sp, hdesc⟩ := parseEventLine_inv hpe
  refine ⟨?_, sp, hdesc⟩
  rw [hdesc]
  show ((trimCh sp).take 50).length ≤ 50
  simp [List.length_take]

/-- Witness for C10: the event parsed from a concrete matching line has a
bounded description of the trim-then-truncate shape. -/
theorem parseFinancialEvents_description_bounded_witness :
    (⟨"2024-03-01", "Q1 earnings beat", "positive"⟩ : FinancialEvent).description.length
        ≤ 50 ∧
      ∃ sp : List Char,
        (⟨"2024-03-01", "Q1 earnings beat", "positive"⟩ :
          FinancialEvent).description = ⟨(trimCh sp).take 50⟩ :=
  parseFinancialEvents_description_bounded
    "2024-03-01 | Q1 earnings beat | positive" _ (by decide)

/-- Claim C6 — `parseFinancialEvents` keeps (in order and multiplicity)
exactly the lines matched by the strict `DATE | DESCRIPTION | IMPACT`
regex, silently discarding the rest, sorts the kept events ascending by
date and truncates to the first 10; every kept impact is one of the three
lowercase keywords.  The ascending-by-date conjunct is stated under the
hypothesis that every matched date is a valid calendar date: the regex
also accepts strings like `2024-99-99` whose `Date.parse` is NaN, and an
inconsistent comparator makes the ECMAScript sort order
implementation-defined. -/
theorem parseFinancialEvents_spec (content : String)
    (hvalid : ∀ e ∈ keptEvents content, (jsDateMs e.date).isSome = true) :
    parseFinancialEvents content = (msortBy evLe (keptEvents content)).take 10 ∧
    (parseFinancialEvents content).Pairwise (fun a b => evKey a ≤ evKey b) ∧
    (∀ e ∈ parseFinancialEvents content,
      ∃ line ∈ jsLines content, parseEventLine line = some e) ∧
    (∀ e ∈ parseFinancialEvents content,
      e.impact = "positive" ∨ e.impact = "negative" ∨ e.impact = "neutral") ∧
    (parseFinancialEvents content).length ≤ 10 := by
  have heq := parseFinancialEvents_eq content
  have hcong : msortBy evLe (keptEvents content) =
      msortBy evKeyLe (keptEvents content) := by
    apply msortBy_congr
    intro a ha b hb
    obtain ⟨x, hx⟩ := Option.isSome_iff_exists.mp (hvalid a ha)
    obtain ⟨y, hy⟩ := Option.isSome_iff_exists.mp (hvalid b hb)
    simp [evLe, evKeyLe, evKey, hx, hy]
  refine ⟨heq, ?_, ?_, ?_, ?_⟩
  · rw [heq, hcong]
    have htr : ∀ a b c : FinancialEvent,
        evKeyLe a b = true → evKeyLe b c = true → evKeyLe a c = true := by
      intro a b c hab hbc
      simp only [evKeyLe, decide_eq_true_eq] at *
      omega
    have hto : ∀ a b : FinancialEvent, evKeyLe a b = true ∨ evKeyLe b a = true := by
      intro a b
      rcases le_total (evKey a) (evKey b) with h | h
      · exact Or.inl (by simpa [evKeyLe] using h)
      · exact Or.inr (by simpa [evKeyLe] using h)
    have hp := pairwise_msortBy htr hto (keptEvents content)
    exact (hp.imp (fun h => by simpa [evKeyLe] using h)).take
  · intro e he
    rw [heq] at he
    exact List.mem_filterMap.mp ((mem_msortBy _ _).mp (List.mem_of_mem_take he))
  · intro e he
    rw [heq] at he
    obtain ⟨line, hl, hpe⟩ :=
      List.mem_filterMap.mp ((mem_msortBy _ _).mp (List.mem_of_mem_take he))
    exact (parseEventLine_inv hpe).1
  · rw [heq]
    exact List.length_take_le 10 _

/-- Witness for C6 at the spec's own example: the matching line is kept
with impact `positive`, the garbage line is discarded. -/
theorem parseFinancialEvents_spec_witness :
    parseFinancialEvents "2024-03-01 | Q1 earnings beat | positive\nnot a valid line" =
      (msortBy evLe (keptEvents
        "2024-03-01 | Q1 earnings beat | positive\nnot a valid line")).take 10 ∧
    (parseFinancialEvents
        "2024-03-01 | Q1 earnings beat | positive\nnot a valid line").Pairwise
      (fun a b => evKey a ≤ evKey b) ∧
    (∀ e ∈ parseFinancialEvents
        "2024-03-01 | Q1 earnings beat | positive\nnot a valid line",
      ∃ line ∈ jsLines "2024-03-01 | Q1 earnings beat | positive\nnot a valid line",
        parseEventLine line = some e) ∧
    (∀ e ∈ parseFinancialEvents
        "2024-03-01 | Q1 earnings beat | positive\nnot a valid line",
      e.impact = "positive" ∨ e.impact = "negative" ∨ e.impact = "neutral") ∧
    (parseFinancialEvents
        "2024-03-01 | Q1 earnings beat | positive\nnot a valid line").length ≤ 10 :=
  parseFinancialEvents_spec
    "2024-03-01 | Q1 earnings beat | positive\nnot a valid line" (by decide)

theorem anStep_no_header {st : AnState} {line : List Char}
    (h : lineMatchesHeader line = false)
    (hc : st.cur = "") (hr : st.rn = []) (hm : st.me = []) (hv : st.va = []) :
    (anStep st line).cur = "" ∧ (anStep st line).rn = [] ∧
    (anStep st line).me = [] ∧ (anStep st line).va = [] := by
  simp only [lineMatchesHeader, Bool.or_eq_false_iff] at h
  obtain ⟨⟨h1, h2⟩, h3⟩ := h
  simp only [anStep, h1, h2, h3, Bool.false_eq_true, if_false]
  split
  · exact ⟨hc, hr, hm, hv⟩
  · split
    · rename_i hcond
      rw [hc] at hcond
      simp at hcond
    · exact ⟨hc, hr, hm, hv⟩

theorem anFold_no_header :
    ∀ (lines : List (List Char)) (st : AnState),
      (∀ l ∈ lines, lineMatchesHeader l = false) →
      st.cur = "" → st.rn = [] → st.me = [] → st.va = [] →
      ((lines.foldl anStep st).cur = "" ∧ (lines.foldl anStep st).rn = [] ∧
       (lines.foldl anStep st).me = [] ∧ (lines.foldl anStep st).va = []) := by
  intro lines
  induction lines with
  | nil =>
    intro st _ hc hr hm hv
    exact ⟨hc, hr, hm, hv⟩
  | cons l ls ih =>
    intro st hall hc hr hm hv
    rw [List.foldl_cons]
    obtain ⟨h1, h2, h3, h4⟩ :=
      anStep_no_header (hall l (List.mem_cons_self l ls)) hc hr hm hv
    exact ih _ (fun x hx => hall x (List.mem_cons_of_mem l hx)) h1 h2 h3 h4

/-- Counterexample to Claim C2 as stated — a response whose lines match no
section header: the heuristic parse yields zero sections, yet the result
is the three fixed placeholder strings, not the equal-thirds split of the
raw lines (which the catch-branch would produce but which is never
reached: the try-block's string operations cannot throw). -/
theorem parseAnalysis_zero_sections_without_thirds :
    (∀ line ∈ jsLines "aaaaaaaaaaaa\nbbbbbbbbbbbb\ncccccccccccc",
      lineMatchesHeader line = false) ∧
    fallbackThirds "aaaaaaaaaaaa\nbbbbbbbbbbbb\ncccccccccccc" =
      (["aaaaaaaaaaaa"], ["bbbbbbbbbbbb"], ["cccccccccccc"]) ∧
    (parseAnalysis "AAPL" "aaaaaaaaaaaa\nbbbbbbbbbbbb\ncccccccccccc" "now").recentNews =
      ["No recent news available"] ∧
    (parseAnalysis "AAPL" "aaaaaaaaaaaa\nbbbbbbbbbbbb\ncccccccccccc" "now").recentNews ≠
      (fallbackThirds "aaaaaaaaaaaa\nbbbbbbbbbbbb\ncccccccccccc").1 := by
  decide

/-- Claim C2 (amended) — when the heuristic section parser matches no
header line, `parseAnalysis` returns the three fixed placeholder strings
(the equal-thirds fallback lives in the catch-branch, which string input
cannot trigger), and all three returned sections are non-empty. -/
theorem parseAnalysis_no_headers (ticker content nowIso : String)
    (h : ∀ line ∈ jsLines content, lineMatchesHeader line = false) :
    parseAnalysis ticker content nowIso =
      ⟨ticker, ["No recent news available"], ["No major events identified"],
       ["Valuation assessment unavailable"], [], nowIso⟩ ∧
    (parseAnalysis ticker content nowIso).recentNews ≠ [] ∧
    (parseAnalysis ticker content nowIso).majorEvents ≠ [] ∧
    (parseAnalysis ticker content nowIso).valuationAssessment ≠ [] := by
  obtain ⟨h1, h2, h3, h4⟩ :=
    anFold_no_header (jsLines content) ⟨"", [], [], [], []⟩ h rfl rfl rfl rfl
  have hflush : anFlush ((jsLines content).foldl anStep ⟨"", [], [], [], []⟩) =
      (jsLines content).foldl anStep ⟨"", [], [], [], []⟩ := by
    unfold anFlush
    rw [h1]
    simp
  have hmain : parseAnalysis ticker content nowIso =
      ⟨ticker, ["No recent news available"], ["No major events identified"],
       ["Valuation assessment unavailable"], [], nowIso⟩ := by
    unfold parseAnalysis
    simp only [hflush, h2, h3, h4, List.isEmpty_nil, if_true]
  refine ⟨hmain, ?_, ?_, ?_⟩ <;> rw [hmain] <;> simp

/-- Witness for C2 (amended) at the concrete header-free response. -/
theorem parseAnalysis_no_headers_witness :
    parseAnalysis "AAPL" "dddddddddddd\neeeeeeeeeeee" "now" =
      ⟨"AAPL", ["No recent news available"], ["No major events identified"],
       ["Valuation assessment unavailable"], [], "now"⟩ ∧
    (parseAnalysis "AAPL" "dddddddddddd\neeeeeeeeeeee" "now").recentNews ≠ [] ∧
    (parseAnalysis "AAPL" "dddddddddddd\neeeeeeeeeeee" "now").majorEvents ≠ [] ∧
    (parseAnalysis "AAPL" "dddddddddddd\neeeeeeeeeeee" "now").valuationAssessment ≠ [] :=
  parseAnalysis_no_headers "AAPL" "dddddddddddd\neeeeeeeeeeee" "now" (by decide)

/-- The invariant holding after both invocations have taken their first
step for an uncached ticker: one upstream call was issued; the
short-circuited invocation `j` is done; the fetching invocation `i` is
either still in flight with the guard entry present, or done with the
guard entry removed. -/
def guardInv (i j : Bool) (s : GuardState) : Prop :=
  s.calls = 1 ∧ taskOf s j = .done ∧
    ((taskOf s i = .inflight ∧ s.guard = true) ∨
     (taskOf s i = .done ∧ s.guard = false))

theorem guardStep_inv (i j : Bool) (hij : i ≠ j) (s : GuardState) (k b : Bool)
    (h : guardInv i j s) : guardInv i j (guardStep s k b) := by
  obtain ⟨g, c, n, tA, tB⟩ := s
  obtain ⟨h1, h2, h3⟩ := h
  cases i <;> cases j <;> first
  | exact absurd rfl hij
  | (cases k <;>
     rcases h3 with ⟨hA, hG⟩ | ⟨hA, hG⟩ <;>
     simp_all [guardInv, guardStep, taskOf, setTask])

theorem guardRun_inv (i j : Bool) (hij : i ≠ j) :
    ∀ (sched : List (Bool × Bool)) (s : GuardState), guardInv i j s →
      guardInv i j (guardRun s sched) := by
  intro sched
  induction sched with
  | nil => intro s h; exact h
  | cons step rest ih =>
    intro s h
    exact ih _ (guardStep_inv i j hij s step.1 step.2 h)

/-- Claim C9 — two concurrent `loadNewsForSelectedStock` invocations for
the same uncached ticker issue exactly one upstream call: whichever runs
first adds the ticker to `ongoingNewsCalls` and issues the fetch in one
synchronous segment, so the other observes the guard and short-circuits
without calling; once the fetching invocation finishes (successful fetch
or thrown error alike, `b1` arbitrary) the guard entry is gone.  Second
conjunct: from any state, an invocation past its synchronous prefix —
suspended in flight or settling after a cache short-circuit — removes the
guard entry and finishes in its next step, the `finally`-equivalent
cleanup on every exit path. -/
theorem loadNews_inflight_guard_dedup :
    (∀ (i j : Bool), i ≠ j → ∀ (b1 b2 : Bool) (rest : List (Bool × Bool)),
      taskOf (guardRun guardInit ((i, b1) :: (j, b2) :: rest)) i = .done →
      (guardRun guardInit ((i, b1) :: (j, b2) :: rest)).calls = 1 ∧
      (guardRun guardInit ((i, b1) :: (j, b2) :: rest)).guard = false ∧
      taskOf (guardRun guardInit ((i, b1) :: (j, b2) :: rest)) j = .done) ∧
    (∀ (s : GuardState) (i b : Bool),
      taskOf s i = .inflight ∨ taskOf s i = .settling →
      (guardStep s i b).guard = false ∧ taskOf (guardStep s i b) i = .done) := by
  constructor
  · intro i j hij b1 b2 rest hdone
    have hs2 : guardInv i j (guardStep (guardStep guardInit i b1) j b2) := by
      cases i <;> cases j <;> first
      | exact absurd rfl hij
      | simp [guardInv, guardInit, guardStep, taskOf, setTask]
    have hinv := guardRun_inv i j hij rest _ hs2
    have hrw : guardRun guardInit ((i, b1) :: (j, b2) :: rest) =
        guardRun (guardStep (guardStep guardInit i b1) j b2) rest := rfl
    rw [hrw] at hdone ⊢
    obtain ⟨h1, h2, h3⟩ := hinv
    rcases h3 with ⟨hA, hG⟩ | ⟨hA, hG⟩
    · rw [hdone] at hA
      exact absurd hA (by simp)
    · exact ⟨h1, hG, h2⟩
  · intro s i b h
    obtain ⟨g, c, n, tA, tB⟩ := s
    cases i <;> rcases h with h | h <;> simp_all [guardStep, taskOf, setTask]

/-- Witness for C9: invocation A starts (issuing the one fetch), B starts
and short-circuits on the guard, A resumes and cleans up; and a concrete
in-flight state whose next step removes the guard entry. -/
theorem loadNews_inflight_guard_dedup_witness :
    ((guardRun guardInit [(true, true), (false, true), (true, true)]).calls = 1 ∧
     (guardRun guardInit [(true, true), (false, true), (true, true)]).guard = false ∧
     taskOf (guardRun guardInit [(true, true), (false, true), (true, true)]) false =
       .done) ∧
    ((guardStep ⟨true, false, 1, .inflight, .done⟩ true true).guard = false ∧
     taskOf (guardStep ⟨true, false, 1, .inflight, .done⟩ true true) true = .done) :=
  ⟨loadNews_inflight_guard_dedup.1 true false (by decide) true true [(true, true)]
      (by decide),
   loadNews_inflight_guard_dedup.2 ⟨true, false, 1, .inflight, .done⟩ true true
      (Or.inl rfl)⟩
